import Mathlib

set_option maxHeartbeats 1000000

/-!  Verification of the AI-Resume-Builder backend (Python sources under
`backend/`).  The Python string operations are embedded as executable
functions on `List Char`; the OpenAI completion adapter, the pdflatex
compiler adapter and the file-extraction libraries are external black
boxes and are passed in as explicit parameters (`Option`/`Except`
values or response functions), exactly as the spec's component model
describes them. -/

/-- Character lists stand for Python strings. -/
abbrev Str := List Char

/-- The characters of a string literal, used to embed the source's
string constants. -/
def chars (s : String) : Str := s.data

/-- Python `str.startswith`, character by character. -/
def startsWithL : Str → Str → Bool
  | [], _ => true
  | _ :: _, [] => false
  | p :: ps, c :: cs => p == c && startsWithL ps cs

/-- Python `str.endswith`, via reversal. -/
def endsWithL (p s : Str) : Bool := startsWithL p.reverse s.reverse

/-- Split at the leftmost occurrence of `sep`:
`breakOnSep sep s = some (pre, post)` with `s = pre ++ sep ++ post`
when `sep` occurs in `s`, and `none` otherwise.  This is the engine
behind the embeddings of Python's `in`, `split` and `replace`. -/
def breakOnSep (sep : Str) : Str → Option (Str × Str)
  | [] => if startsWithL sep [] then some ([], []) else none
  | c :: rest =>
    if startsWithL sep (c :: rest) then some ([], (c :: rest).drop sep.length)
    else (breakOnSep sep rest).map (fun pr => (c :: pr.1, pr.2))

/-- Python's `sep in s` substring test. -/
def containsL (sep s : Str) : Bool := (breakOnSep sep s).isSome

/-- Everything before the first occurrence of `sep` (the whole string
when `sep` does not occur); `s.split(sep)[1]` on a string that starts
with `sep` is `takeUntilSep sep (s.drop sep.length)`. -/
def takeUntilSep (sep s : Str) : Str :=
  match breakOnSep sep s with
  | none => s
  | some pr => pr.1

/-- The proposition that `pat` occurs as a contiguous substring of `s`. -/
def occursIn (pat s : Str) : Prop := ∃ a b, s = a ++ pat ++ b

/-- Python `str.lstrip()`. -/
def lstripL (s : Str) : Str := s.dropWhile Char.isWhitespace

/-- Python `str.rstrip()`. -/
def rstripL (s : Str) : Str := (s.reverse.dropWhile Char.isWhitespace).reverse

/-- Python `str.strip()`. -/
def trimL (s : Str) : Str := lstripL (rstripL s)

/-- Python `str.lower()` (ASCII-relevant part). -/
def toLowerL (s : Str) : Str := s.map Char.toLower

/-- Python `str.replace(pat, repl)` (all non-overlapping occurrences,
left to right, replacement text not rescanned), with explicit fuel;
the fuel `s.length` used by `replaceAllL` never runs out for the
nonempty patterns the program uses. -/
def replaceAllFuel (pat repl : Str) : Nat → Str → Str
  | 0, s => s
  | fuel + 1, s =>
    match breakOnSep pat s with
    | none => s
    | some (pre, post) => pre ++ repl ++ replaceAllFuel pat repl fuel post

/-- Python `str.replace(pat, repl)`. -/
def replaceAllL (pat repl s : Str) : Str := replaceAllFuel pat repl s.length s

/-- Count of non-overlapping occurrences of `pat` in `s`, scanning left
to right, with fuel (see `replaceAllFuel`). -/
def countSepFuel (pat : Str) : Nat → Str → Nat
  | 0, _ => 0
  | fuel + 1, s =>
    match breakOnSep pat s with
    | none => 0
    | some (_, post) => countSepFuel pat fuel post + 1

/-- Count of non-overlapping occurrences of `pat` in `s`. -/
def countSep (pat s : Str) : Nat := countSepFuel pat s.length s

/-- Python `str.split(chr 10)` (splitting on newline characters). -/
def splitLinesL : Str → List Str
  | [] => [[]]
  | c :: rest =>
    if c = '\n' then [] :: splitLinesL rest
    else
      match splitLinesL rest with
      | [] => [[c]]
      | l :: ls => (c :: l) :: ls

/-- `line[0].isdigit()` on a possibly empty line. -/
def headIsDigit : Str → Bool
  | [] => false
  | c :: _ => c.isDigit

/-! ## Document markers and the markup sanitizer
(`gpt_latex_generator.py`, the identical clean-up blocks at lines
106-116, 193-203 and 396-406). -/

/-- The document start marker. -/
def documentclass : Str := chars "\\documentclass"

/-- The document end marker. -/
def endMarker : Str := chars "\\end\x7bdocument\x7d"

/-- The text appended to a candidate that lacks the end marker
(a newline, the end marker, a newline). -/
def appendEnd : Str := chars "\n\\end\x7bdocument\x7d\n"

/-- A markdown code fence. -/
def fenceMark : Str := chars "```"

/-- The language tag the clean-up blocks strip after an opening fence. -/
def latexTag : Str := chars "latex"

/-- The fence clean-up shared verbatim by `generate_latex_resume`,
`refine_latex_resume` and `fix_latex_compilation_errors`:
if the text starts with a fence, keep `split(fence)[1]` and drop a
leading `latex` tag; afterwards, if the (possibly updated) text ends
with a fence, drop the final three characters. -/
def stripFences (s : Str) : Str :=
  let s1 :=
    if startsWithL fenceMark s then
      let t := takeUntilSep fenceMark (s.drop 3)
      if startsWithL latexTag t then t.drop 5 else t
    else s
  if endsWithL fenceMark s1 then s1.take (s1.length - 3) else s1

/-- The full sanitizer applied to a raw completion: the completion is
first stripped of surrounding whitespace (`.strip()` on the message
content), then fences are removed, then it is stripped again. -/
def sanitize (raw : Str) : Str := trimL (stripFences (trimL raw))

/-! ## Fallback generator (`gpt_latex_generator.py` 310-344). -/

/-- Modelled from the spec: the fixed template file
`templates/jakes_resume_template_original.tex` read by
`read_jakes_template` is not part of the repository sources available
here; per spec section 4.2 and scenario 5 it is a fixed document that
starts with the start marker, ends with the end marker and carries
name/email/phone placeholder fields. -/
def jakes_template : Str :=
  chars "\\documentclass\x7barticle\x7d\n\\begin\x7bdocument\x7d\n\x7b\x7bFULL_NAME\x7d\x7d \\\\ \x7b\x7bEMAIL\x7d\x7d \\\\ \x7b\x7bPHONE\x7d\x7d\n\\end\x7bdocument\x7d\n"

/-- The replacement dictionary of `create_fallback_latex`, in insertion
order: double-brace then single-brace spellings of the name/email/phone
placeholders. -/
def fallbackReplacements (user_name email phone : Str) : List (Str × Str) :=
  [(chars "\x7b\x7bFULL_NAME\x7d\x7d", user_name),
   (chars "\x7b\x7bNAME\x7d\x7d", user_name),
   (chars "\x7b\x7bEMAIL\x7d\x7d", email),
   (chars "\x7b\x7bPHONE\x7d\x7d", phone),
   (chars "\x7bFULL_NAME\x7d", user_name),
   (chars "\x7bNAME\x7d", user_name),
   (chars "\x7bEMAIL\x7d", email),
   (chars "\x7bPHONE\x7d", phone)]

/-- `create_fallback_latex`: the template with the placeholder
substitutions applied in order, and the end marker force-appended
(after an `rstrip`) when `strip()` of the result does not end with it. -/
def create_fallback_latex (template user_name email phone : Str) : Str :=
  let fallback :=
    (fallbackReplacements user_name email phone).foldl
      (fun acc pr => replaceAllL pr.1 pr.2 acc) template
  if endsWithL endMarker (trimL fallback) then fallback
  else rstripL fallback ++ appendEnd

/-! ## Generator (`gpt_latex_generator.py` 37-135).  The completion
adapter is a parameter: `none` models an exception/timeout raised by
the OpenAI call, `some content` the returned message content. -/

/-- `generate_latex_resume`: sanitize the completion; on a missing
start marker (or an adapter exception) fall back to
`create_fallback_latex`; append the end marker when the candidate does
not contain it. -/
def generate_latex_resume (template user_name email phone : Str)
    (completion : Option Str) : Str :=
  match completion with
  | none => create_fallback_latex template user_name email phone
  | some content =>
    let latex_code := sanitize content
    if startsWithL documentclass latex_code then
      if containsL endMarker latex_code then latex_code
      else latex_code ++ appendEnd
    else create_fallback_latex template user_name email phone

/-! ## Refiner (`gpt_latex_generator.py` 138-232). -/

/-- The refinement candidate after envelope completion: the sanitized
completion, with the end marker appended when `strip()` of it does not
end with the end marker (this is the document whose length the 50%
data-loss guard measures). -/
def refined_document (content : Str) : Str :=
  if endsWithL endMarker (trimL (sanitize content)) then sanitize content
  else sanitize content ++ appendEnd

/-- `refine_latex_resume`: on an adapter exception return the original;
sanitize the completion; on a missing start marker return the
original; complete the envelope; if the result is shorter than 50% of
the original (`refined_length < original_length * 0.5`, i.e.
`2 * refined_length < original_length` on exact integers) return the
original; otherwise return the refined document. -/
def refine_latex_resume (current_latex : Str) (completion : Option Str) : Str :=
  match completion with
  | none => current_latex
  | some content =>
    if startsWithL documentclass (sanitize content) then
      if 2 * (refined_document content).length < current_latex.length then
        current_latex
      else refined_document content
    else current_latex

/-! ## Repair completion (`gpt_latex_generator.py` 347-424). -/

/-- The body of `fix_latex_compilation_errors` from the `try:` block
on: on an adapter exception return the input candidate unchanged;
sanitize the completion; on a missing start marker return the input
candidate unchanged; append the end marker when missing. -/
def fix_latex_body (latex_code : Str) (completion : Option Str) : Str :=
  match completion with
  | none => latex_code
  | some content =>
    let fixed := sanitize content
    if startsWithL documentclass fixed then
      if containsL endMarker fixed then fixed
      else fixed ++ appendEnd
    else latex_code

/-- `fix_latex_compilation_errors` including the prompt construction
that precedes its `try:` block: the prompt interpolates
`error_log[:2000]`, which raises `TypeError` (uncaught inside the
function) when the error log is Python `None`; `none` for `error_log`
models that value, and `.error ()` the raised exception.  `attempt` is
used only for logging. -/
def fix_latex_compilation_errors (latex_code : Str) (error_log : Option Str)
    (attempt : Nat) (completion : Option Str) : Except Unit Str :=
  match error_log with
  | none => .error ()
  | some _ => .ok (fix_latex_body latex_code completion)

/-! ## Error classification (`latex_compiler.py` 214-231). -/

/-- `analyze_latex_error`: `(type, description)` from first-match-wins
substring tests on the lowercased log; the empty (falsy) log is
classified `unknown`. -/
def analyze_latex_error (log_output : Str) : Str × Str :=
  if log_output = [] then (chars "unknown", chars "No log output available")
  else
    let log_lower := toLowerL log_output
    if containsL (chars "! undefined control sequence") log_lower then
      (chars "undefined_command", chars "LaTeX command not recognized")
    else if containsL (chars "! missing") log_lower then
      (chars "syntax_error", chars "LaTeX syntax error (missing delimiters)")
    else if containsL (chars "! package") log_lower then
      (chars "package_error", chars "LaTeX package error")
    else if containsL (chars "font") log_lower &&
        (containsL (chars "not found") log_lower ||
          containsL (chars "error") log_lower) then
      (chars "font_error", chars "Font not found")
    else (chars "general_error", chars "LaTeX compilation error")

/-! ## Suggestion generator (`gpt_latex_generator.py` 235-307). -/

/-- The fixed default suggestions returned on any failure. -/
def default_suggestions : List Str :=
  [chars "Add metrics and quantifiable achievements (e.g., \x27↑ 25% improvement\x27)",
   chars "Incorporate top 5 keywords from the job description",
   chars "Use strong action verbs (e.g., \x27Developed\x27, \x27Implemented\x27, \x27Architected\x27)",
   chars "Highlight technical skills matching the role requirements"]

/-- One iteration of the suggestion-parsing loop: strip the line; keep
it only when nonempty and led by a digit, a bullet or a dash; cut a
`1. ` numbering via `split(". ", 1)[1]` when the head is a digit and
`". "` occurs, else cut a two-character `bullet-space`/`dash-space`
marker; keep the stripped remainder when nonempty. -/
def parseSuggestionLine (raw_line : Str) : Option Str :=
  let line := trimL raw_line
  if line = [] then none
  else if headIsDigit line || startsWithL (chars "•") line ||
      startsWithL (chars "-") line then
    let suggestion :=
      if headIsDigit line && containsL (chars ". ") line then
        match breakOnSep (chars ". ") line with
        | some pr => pr.2
        | none => line
      else if startsWithL (chars "• ") line || startsWithL (chars "- ") line then
        line.drop 2
      else line
    let s := trimL suggestion
    if s = [] then none else some s
  else none

/-- Line-by-line parsing of the completion into suggestion strings. -/
def parseSuggestions (text : Str) : List Str :=
  (splitLinesL text).filterMap parseSuggestionLine

/-- `get_resume_suggestions`: on an adapter exception return the
defaults; otherwise parse the stripped completion line by line and
return at most 4 items, falling back to the defaults when no line
parses. -/
def get_resume_suggestions (completion : Option Str) : List Str :=
  match completion with
  | none => default_suggestions
  | some raw =>
    let suggestions := parseSuggestions (trimL raw)
    if suggestions = [] then default_suggestions
    else suggestions.take 4

/-! ## Resume file parsing (`parsers.py`). The extraction libraries
(pdfplumber, mammoth, python-docx) are external; their outcome is a
parameter (`.error e` models a raised exception with message `e`). -/

/-- `extract_text_from_pdf`: join the page texts with newlines and
strip, or encode a pdfplumber failure in-band as
`"Error extracting PDF text: ..."`. -/
def extract_text_from_pdf (pages : Except Str (List Str)) : Str :=
  match pages with
  | .error e => chars "Error extracting PDF text: " ++ e
  | .ok ps => trimL (ps.foldl (fun acc p => acc ++ p ++ ['\n']) [])

/-- `extract_text_from_docx`: mammoth's raw text when it succeeds, else
the python-docx paragraphs joined with newlines, else the in-band
`"Error extracting DOCX text: ..."` encoding of the failure. -/
def extract_text_from_docx (mammothText : Except Str Str)
    (docxParagraphs : Except Str (List Str)) : Str :=
  match mammothText with
  | .ok v => v
  | .error _ =>
    match docxParagraphs with
    | .ok paras => List.intercalate ['\n'] paras
    | .error e => chars "Error extracting DOCX text: " ++ e

/-- The outcome of `parse_resume_file`: the `{"error": ...}` dictionary
or the parsed-resume dictionary (only the `raw_text` field matters to
the claims; `contact`/`file_type`/`filename`/`text_length` are derived
from it and the file name). -/
inductive ParseOutcome where
  | ok (raw_text : Str)
  | error (msg : Str)
deriving DecidableEq

/-- `parse_resume_file`: reject a missing file and unsupported
extensions; `text` is the output of the extractor chosen by the
(lowercased) suffix; reject empty text and any text that starts with
`"Error"` (the in-band failure encoding); otherwise succeed. -/
def parse_resume_file (fileExists : Bool) (suffix filename text : Str) :
    ParseOutcome :=
  if fileExists = false then .error (chars "File not found")
  else if toLowerL suffix = chars ".pdf" ∨ toLowerL suffix = chars ".docx" ∨
      toLowerL suffix = chars ".doc" then
    if text = [] then .error (chars "Failed to extract text from " ++ filename)
    else if startsWithL (chars "Error") text then
      .error (chars "Failed to extract text: " ++ text)
    else .ok text
  else .error (chars "Unsupported file type: " ++ suffix)

/-! ## The compile-and-repair loop (`main.py` 125-199). -/

/-- One compiler-adapter response (`compile_with_fallback`): success,
or failure carrying the `latex_log` value, which is Python `None`
(modelled `none`) on e.g. a compilation timeout
(`latex_compiler.py` 117-120). -/
inductive CompileResult where
  | ok : CompileResult
  | failed (latex_log : Option Str) : CompileResult
deriving DecidableEq

/-- The terminal outcome of the `enhance_resume` request: the 200
success response (carrying `compilation_attempts` and the final
candidate), the 400 exhausted-budget response (carrying the
`compilation_attempts` value it reports and the final candidate), or
the 500 catch-all response produced when an exception escapes the
loop. -/
inductive EnhanceOutcome where
  | success (compilation_attempts : Nat) (latex_code : Str)
  | exhausted (compilation_attempts : Nat) (latex_code : Str)
  | serverError
deriving DecidableEq

/-- The loop's observable behaviour: its outcome, how many times the
compiler adapter was invoked, and how many repair completions were
requested. -/
structure LoopTrace where
  outcome : EnhanceOutcome
  compiler_calls : Nat
  repair_calls : Nat
deriving DecidableEq

/-- `MAX_ATTEMPTS = 5` (`main.py` 125). -/
def MAX_ATTEMPTS : Nat := 5

/-- The `while attempt <= MAX_ATTEMPTS and not compilation_success`
loop of `enhance_resume`: compile the current candidate; on success
return the 200 response reporting the current attempt number; on
failure with `attempt < MAX_ATTEMPTS` run `fix_latex_compilation_errors`
on the candidate and the failure's `latex_log` and continue with
`attempt + 1` (a `TypeError` escaping the repair call lands in the
endpoint's catch-all 500 handler); on failure at
`attempt = MAX_ATTEMPTS` return the 400 response, which reports
`attempt - 1` as `compilation_attempts`.  `compiler` gives the
compiler-adapter response for each attempt index and `repairc` the
repair completion for each attempt index. -/
def enhance_loop (compiler : Nat → CompileResult) (repairc : Nat → Option Str)
    (latex_code : Str) (attempt : Nat) : LoopTrace :=
  match compiler attempt with
  | .ok => ⟨.success attempt latex_code, 1, 0⟩
  | .failed latex_log =>
    if h : attempt < MAX_ATTEMPTS then
      match fix_latex_compilation_errors latex_code latex_log attempt
          (repairc attempt) with
      | .error _ => ⟨.serverError, 1, 0⟩
      | .ok fixed =>
        let rest := enhance_loop compiler repairc fixed (attempt + 1)
        ⟨rest.outcome, rest.compiler_calls + 1, rest.repair_calls + 1⟩
    else ⟨.exhausted (attempt - 1) latex_code, 1, 0⟩
termination_by MAX_ATTEMPTS - attempt
decreasing_by omega

/-! ## Lemmas about the string primitives. -/

theorem startsWithL_iff (p s : Str) : startsWithL p s = true ↔ ∃ t, s = p ++ t := by
  induction p generalizing s with
  | nil => simp [startsWithL]
  | cons c cs ih =>
    cases s with
    | nil =>
      simp [startsWithL]
    | cons d ds =>
      simp only [startsWithL, Bool.and_eq_true, beq_iff_eq]
      constructor
      · rintro ⟨rfl, h⟩
        obtain ⟨t, rfl⟩ := (ih ds).mp h
        exact ⟨t, rfl⟩
      · rintro ⟨t, ht⟩
        rw [List.cons_append] at ht
        injection ht with h1 h2
        exact ⟨h1.symm, (ih ds).mpr ⟨t, h2⟩⟩

theorem startsWithL_self_append (p t : Str) : startsWithL p (p ++ t) = true :=
  (startsWithL_iff p (p ++ t)).mpr ⟨t, rfl⟩

theorem startsWithL_mono {p s : Str} (h : startsWithL p s = true) (u : Str) :
    startsWithL p (s ++ u) = true := by
  obtain ⟨t, rfl⟩ := (startsWithL_iff p s).mp h
  rw [List.append_assoc]
  exact startsWithL_self_append p (t ++ u)

theorem endsWithL_iff (p s : Str) : endsWithL p s = true ↔ ∃ a, s = a ++ p := by
  rw [endsWithL, startsWithL_iff]
  constructor
  · rintro ⟨t, ht⟩
    refine ⟨t.reverse, ?_⟩
    have h2 := congrArg List.reverse ht
    simpa using h2
  · rintro ⟨a, rfl⟩
    exact ⟨a.reverse, by simp⟩

theorem breakOnSep_sound {sep : Str} : ∀ {s pre post : Str},
    breakOnSep sep s = some (pre, post) → s = pre ++ sep ++ post := by
  intro s
  induction s with
  | nil =>
    intro pre post h
    rw [breakOnSep] at h
    split at h
    · rename_i hsw
      obtain ⟨t, ht⟩ := (startsWithL_iff _ _).mp hsw
      have hsep : sep = [] := by
        cases sep with
        | nil => rfl
        | cons a as => exact absurd ht (by simp)
      simp only [Option.some.injEq, Prod.mk.injEq] at h
      obtain ⟨h1, h2⟩ := h
      simp [← h1, ← h2, hsep]
    · exact absurd h (by simp)
  | cons c rest ih =>
    intro pre post h
    rw [breakOnSep] at h
    split at h
    · rename_i hsw
      obtain ⟨t, ht⟩ := (startsWithL_iff _ _).mp hsw
      simp only [Option.some.injEq, Prod.mk.injEq] at h
      obtain ⟨h1, h2⟩ := h
      rw [← h1, ← h2, ht, List.nil_append, List.drop_left]
    · rename_i hsw
      cases hb : breakOnSep sep rest with
      | none => rw [hb] at h; exact absurd h (by simp)
      | some pr =>
        rw [hb] at h
        simp only [Option.map_some', Option.some.injEq, Prod.mk.injEq] at h
        obtain ⟨h1, h2⟩ := h
        have := ih (show breakOnSep sep rest = some (pr.1, pr.2) from by rw [hb])
        rw [← h1, ← h2, this]
        simp

theorem occursIn_cons {pat rest : Str} (c : Char) (h : occursIn pat rest) :
    occursIn pat (c :: rest) := by
  obtain ⟨a, b, rfl⟩ := h
  exact ⟨c :: a, b, by simp⟩

theorem occursIn_append_left {pat b : Str} (a : Str) (h : occursIn pat b) :
    occursIn pat (a ++ b) := by
  obtain ⟨x, y, rfl⟩ := h
  exact ⟨a ++ x, y, by simp⟩

theorem breakOnSep_none_iff {sep s : Str} :
    breakOnSep sep s = none ↔ ¬ occursIn sep s := by
  induction s with
  | nil =>
    rw [breakOnSep]
    constructor
    · intro h hocc
      obtain ⟨a, b, hab⟩ := hocc
      have ha : a = [] ∧ sep = [] ∧ b = [] := by
        constructor
        · cases a with
          | nil => rfl
          | cons x xs => exact absurd hab (by simp)
        constructor
        · cases sep with
          | nil => rfl
          | cons x xs =>
            cases a <;> exact absurd hab (by simp)
        · cases b with
          | nil => rfl
          | cons x xs =>
            cases a <;> cases sep <;> exact absurd hab (by simp)
      rw [ha.2.1] at h
      simp [startsWithL] at h
    · intro hno
      split
      · rename_i hsw
        obtain ⟨t, ht⟩ := (startsWithL_iff _ _).mp hsw
        exact absurd ⟨[], t, by simpa using ht⟩ hno
      · rfl
  | cons c rest ih =>
    rw [breakOnSep]
    constructor
    · intro h hocc
      split at h
      · exact absurd h (by simp)
      · rename_i hsw
        obtain ⟨a, b, hab⟩ := hocc
        cases a with
        | nil =>
          rw [List.nil_append] at hab
          exact hsw ((startsWithL_iff _ _).mpr ⟨b, hab⟩)
        | cons x xs =>
          rw [List.cons_append, List.cons_append] at hab
          injection hab with h1 h2
          have : breakOnSep sep rest = none := by
            cases hb : breakOnSep sep rest with
            | none => rfl
            | some pr => rw [hb] at h; exact absurd h (by simp)
          exact ih.mp this ⟨xs, b, by rw [h2]⟩
    · intro hno
      split
      · rename_i hsw
        obtain ⟨t, ht⟩ := (startsWithL_iff _ _).mp hsw
        exact absurd ⟨[], t, by simpa using ht⟩ hno
      · have : breakOnSep sep rest = none :=
          ih.mpr (fun hocc => hno (occursIn_cons c hocc))
        rw [this]
        rfl

theorem containsL_iff (sep s : Str) : containsL sep s = true ↔ occursIn sep s := by
  rw [containsL]
  constructor
  · intro h
    cases hb : breakOnSep sep s with
    | none => rw [hb] at h; simp at h
    | some pr => exact ⟨pr.1, pr.2, breakOnSep_sound (by rw [hb])⟩
  · intro hocc
    cases hb : breakOnSep sep s with
    | none => exact absurd hocc (breakOnSep_none_iff.mp hb)
    | some pr => simp

theorem containsL_false_iff (sep s : Str) :
    containsL sep s = false ↔ ¬ occursIn sep s := by
  rw [← breakOnSep_none_iff, containsL]
  cases breakOnSep sep s <;> simp

theorem dropWhile_append_full (q : Char → Bool) (a b : Str) :
    (a ++ b).dropWhile q =
      if a.dropWhile q = [] then b.dropWhile q else a.dropWhile q ++ b := by
  induction a with
  | nil => simp
  | cons c cs ih =>
    rw [List.cons_append, List.dropWhile_cons, List.dropWhile_cons]
    by_cases hc : q c
    · simp only [hc, if_true]
      rw [ih]
    · simp [hc]

theorem occursIn_right_of_head_notin {h : Char} {pt a b : Str}
    (hna : h ∉ a) (hocc : occursIn (h :: pt) (a ++ b)) : occursIn (h :: pt) b := by
  obtain ⟨x, y, hxy⟩ := hocc
  rw [List.append_assoc] at hxy
  rcases List.append_eq_append_iff.mp hxy with ⟨u, hx, hb⟩ | ⟨u, ha, hrest⟩
  · exact ⟨u, y, by rw [hb, List.append_assoc]⟩
  · cases u with
    | nil =>
      rw [List.append_nil] at ha
      refine ⟨[], y, ?_⟩
      rw [List.nil_append]
      exact hrest.symm
    | cons v u' =>
      exfalso
      rw [List.cons_append, List.cons_append] at hrest
      injection hrest with h1 h2
      apply hna
      rw [ha, ← h1]
      exact List.mem_append_right _ (List.mem_cons_self _ _)

theorem breakOnSep_append_right {pat a : Str} {c : Char} (z : Str)
    (hna : ¬ occursIn pat a) (hc : c ∉ pat) :
    breakOnSep pat (a ++ c :: z) =
      (breakOnSep pat (c :: z)).map (fun pr => (a ++ pr.1, pr.2)) := by
  induction a with
  | nil =>
    rw [List.nil_append]
    cases breakOnSep pat (c :: z) with
    | none => rfl
    | some pr => simp
  | cons d a' ih =>
    have hnsw : ¬ startsWithL pat (d :: (a' ++ c :: z)) = true := by
      intro hsw
      obtain ⟨t, ht⟩ := (startsWithL_iff _ _).mp hsw
      rw [show d :: (a' ++ c :: z) = (d :: a') ++ (c :: z) by simp] at ht
      rcases List.append_eq_append_iff.mp ht.symm with ⟨u, hda, hcz⟩ | ⟨u, hpat, hrest⟩
      · exact hna ⟨[], u, by rw [List.nil_append]; exact hda⟩
      · cases u with
        | nil =>
          rw [List.append_nil] at hpat
          exact hna ⟨[], [], by rw [List.nil_append, List.append_nil]; exact hpat.symm⟩
        | cons e u' =>
          rw [List.cons_append] at hrest
          injection hrest with h1 h2
          apply hc
          rw [hpat, h1]
          exact List.mem_append_right _ (List.mem_cons_self _ _)
    have hna' : ¬ occursIn pat a' := fun hocc => hna (occursIn_cons d hocc)
    rw [List.cons_append, breakOnSep, if_neg hnsw, ih hna']
    cases breakOnSep pat (c :: z) with
    | none => rfl
    | some pr => simp

theorem breakOnSep_post_lt {pat s pre post : Str} (hp : pat ≠ [])
    (h : breakOnSep pat s = some (pre, post)) : post.length < s.length := by
  have hs := breakOnSep_sound h
  rw [hs]
  simp only [List.append_assoc, List.length_append]
  have : 0 < pat.length := List.length_pos.mpr hp
  omega

theorem countSepFuel_fuel_irrel {pat : Str} (hp : pat ≠ []) :
    ∀ (f : Nat) (s : Str), s.length ≤ f → countSepFuel pat f s = countSep pat s := by
  intro f
  induction f using Nat.strong_induction_on with
  | _ f ih =>
    intro s hf
    match f, s with
    | 0, s =>
      have : s = [] := List.length_eq_zero.mp (Nat.le_zero.mp hf)
      subst this
      rfl
    | g + 1, [] =>
      have hb : breakOnSep pat [] = none := by
        cases pat with
        | nil => exact absurd rfl hp
        | cons p ps =>
          rw [breakOnSep]
          simp [startsWithL]
      have h1 : countSepFuel pat (g + 1) [] = 0 := by rw [countSepFuel, hb]
      rw [h1]
      rfl
    | g + 1, c :: rest =>
      rw [countSep]
      simp only [List.length_cons]
      rw [countSepFuel, countSepFuel]
      cases hb : breakOnSep pat (c :: rest) with
      | none => rfl
      | some pr =>
        obtain ⟨pre, post⟩ := pr
        have hlt : post.length < rest.length + 1 := by
          have := breakOnSep_post_lt hp hb
          simpa using this
        simp only [List.length_cons] at hf
        have h1 : countSepFuel pat g post = countSep pat post :=
          ih g (Nat.lt_succ_self g) post (by omega)
        have h2 : countSepFuel pat rest.length post = countSep pat post :=
          ih rest.length (by omega) post (by omega)
        show countSepFuel pat g post + 1 = countSepFuel pat rest.length post + 1
        rw [h1, h2]

theorem countSep_none {pat s : Str} (h : breakOnSep pat s = none) :
    countSep pat s = 0 := by
  rw [countSep]
  cases s with
  | nil => rfl
  | cons c rest =>
    simp only [List.length_cons]
    rw [countSepFuel, h]

theorem countSep_of_break_some {pat s pre post : Str} (hp : pat ≠ [])
    (h : breakOnSep pat s = some (pre, post)) :
    countSep pat s = countSep pat post + 1 := by
  cases s with
  | nil =>
    exfalso
    have hs := breakOnSep_sound h
    have : 0 < pat.length := List.length_pos.mpr hp
    have := congrArg List.length hs
    simp only [List.length_nil, List.append_assoc, List.length_append] at this
    omega
  | cons c rest =>
    rw [countSep]
    simp only [List.length_cons]
    rw [countSepFuel, h]
    have hlt : post.length < (c :: rest).length := breakOnSep_post_lt hp h
    simp only [List.length_cons] at hlt
    show countSepFuel pat rest.length post + 1 = countSep pat post + 1
    rw [countSepFuel_fuel_irrel hp rest.length post (by omega)]

theorem countSep_append_right {pat a : Str} {c : Char} (z : Str)
    (hna : ¬ occursIn pat a) (hc : c ∉ pat) :
    countSep pat (a ++ c :: z) = countSep pat (c :: z) := by
  have hp : pat ≠ [] := by
    rintro rfl
    exact hna ⟨a, [], by simp⟩
  have hD := breakOnSep_append_right z hna hc
  cases hb : breakOnSep pat (c :: z) with
  | none =>
    rw [hb] at hD
    simp only [Option.map_none'] at hD
    rw [countSep_none hD, countSep_none hb]
  | some pr =>
    rw [hb] at hD
    simp only [Option.map_some'] at hD
    have hb' : breakOnSep pat (c :: z) = some (pr.1, pr.2) := by rw [hb]
    rw [countSep_of_break_some hp hD, countSep_of_break_some hp hb']

theorem rstripL_append (a : Str) {b : Str} (hb : rstripL b ≠ []) :
    rstripL (a ++ b) = a ++ rstripL b := by
  have hb' : b.reverse.dropWhile Char.isWhitespace ≠ [] := by
    intro h
    apply hb
    rw [rstripL, h]
    rfl
  rw [rstripL, List.reverse_append, dropWhile_append_full, if_neg hb',
    List.reverse_append, List.reverse_reverse, rstripL]

theorem rstripL_snoc_ws {c : Char} (hc : c.isWhitespace = true) (x : Str) :
    rstripL (x ++ [c]) = rstripL x := by
  rw [rstripL, rstripL, List.reverse_append]
  simp [List.dropWhile, hc]

theorem rstripL_snoc_nonws {c : Char} (hc : c.isWhitespace = false) (x : Str) :
    rstripL (x ++ [c]) = x ++ [c] := by
  rw [rstripL, List.reverse_append]
  simp [List.dropWhile, hc]

theorem rstripL_cons {c : Char} {x : Str} (hx : rstripL x ≠ []) :
    rstripL (c :: x) = c :: rstripL x := by
  have hx' : x.reverse.dropWhile Char.isWhitespace ≠ [] := by
    intro h
    apply hx
    rw [rstripL, h]
    rfl
  rw [show (c :: x : Str) = [c] ++ x by rfl, rstripL_append [c] hx]
  rfl

theorem lstripL_cons_ws {c : Char} (hc : c.isWhitespace = true) (x : Str) :
    lstripL (c :: x) = lstripL x := by
  simp [lstripL, List.dropWhile, hc]

theorem lstripL_cons_nonws {c : Char} (hc : c.isWhitespace = false) (x : Str) :
    lstripL (c :: x) = c :: x := by
  simp [lstripL, List.dropWhile, hc]

theorem rstripL_nil : rstripL [] = [] := rfl

theorem trimL_cons_ws {c : Char} (hc : c.isWhitespace = true) (x : Str) :
    trimL (c :: x) = trimL x := by
  by_cases hx : rstripL x = []
  · have h1 : rstripL (c :: x) = [] := by
      have hxr : x.reverse.dropWhile Char.isWhitespace = [] := by
        have := congrArg List.reverse hx
        rw [rstripL, List.reverse_reverse] at this
        simpa using this
      rw [show (c :: x : Str) = [c] ++ x by rfl, rstripL, List.reverse_append,
        dropWhile_append_full, if_pos hxr]
      simp [List.dropWhile, hc]
    rw [trimL, trimL, h1, hx]
  · rw [trimL, trimL, rstripL_cons hx, lstripL_cons_ws hc]

theorem trimL_snoc_ws {c : Char} (hc : c.isWhitespace = true) (x : Str) :
    trimL (x ++ [c]) = trimL x := by
  rw [trimL, trimL, rstripL_snoc_ws hc]

theorem trimL_sandwich_nonws {c d : Char} (hc : c.isWhitespace = false)
    (hd : d.isWhitespace = false) (mid : Str) :
    trimL ((c :: mid) ++ [d]) = (c :: mid) ++ [d] := by
  rw [trimL, rstripL_snoc_nonws hd, List.cons_append, lstripL_cons_nonws hc]

theorem endsWithL_rstrip_of_trim {p s : Str} (h : endsWithL p (trimL s) = true) :
    endsWithL p (rstripL s) = true := by
  obtain ⟨a, ha⟩ := (endsWithL_iff _ _).mp h
  have hdecomp : rstripL s =
      (rstripL s).takeWhile Char.isWhitespace ++ trimL s := by
    rw [trimL, lstripL]
    exact (List.takeWhile_append_dropWhile _ _).symm
  rw [endsWithL_iff]
  refine ⟨(rstripL s).takeWhile Char.isWhitespace ++ a, ?_⟩
  rw [List.append_assoc, ← ha]
  exact hdecomp

theorem startsWith_replaceAllFuel (pt repl : Str) (f : Nat) {p : Str}
    (hbr : '\x7b' ∉ p) :
    ∀ {s : Str}, startsWithL p s = true →
      startsWithL p (replaceAllFuel ('\x7b' :: pt) repl f s) = true := by
  induction f with
  | zero =>
    intro s hs
    rw [replaceAllFuel]
    exact hs
  | succ g ih =>
    intro s hs
    rw [replaceAllFuel]
    split
    · exact hs
    · rename_i pre post heq
      obtain ⟨t, rfl⟩ := (startsWithL_iff _ _).mp hs
      have hsound := breakOnSep_sound heq
      rw [List.append_assoc] at hsound
      have hpre : startsWithL p pre = true := by
        rcases List.append_eq_append_iff.mp hsound with ⟨u, hpr, _⟩ | ⟨u, hpp, hrest⟩
        · rw [hpr]
          exact startsWithL_self_append p u
        · cases u with
          | nil =>
            rw [List.append_nil] at hpp
            rw [← hpp]
            exact (startsWithL_iff _ _).mpr ⟨[], by simp⟩
          | cons v u' =>
            exfalso
            rw [List.cons_append, List.cons_append] at hrest
            injection hrest with h1 h2
            apply hbr
            rw [hpp, h1]
            exact List.mem_append_right _ (List.mem_cons_self _ _)
      have := startsWithL_mono hpre (repl ++ replaceAllFuel ('\x7b' :: pt) repl g post)
      rw [← List.append_assoc] at this
      exact this

theorem startsWith_foldl_replace (rs : List (Str × Str)) {p : Str}
    (hbr : '\x7b' ∉ p)
    (hpats : ∀ pr ∈ rs, ∃ pt, pr.1 = '\x7b' :: pt) :
    ∀ {s : Str}, startsWithL p s = true →
      startsWithL p (rs.foldl (fun acc pr => replaceAllL pr.1 pr.2 acc) s) = true := by
  induction rs with
  | nil =>
    intro s hs
    simpa using hs
  | cons pr rest ih =>
    intro s hs
    rw [List.foldl_cons]
    apply ih (fun q hq => hpats q (List.mem_cons_of_mem pr hq))
    obtain ⟨pt, hpt⟩ := hpats pr (List.mem_cons_self _ _)
    rw [replaceAllL, hpt]
    exact startsWith_replaceAllFuel pt pr.2 _ hbr hs

/-! ## Claim theorems. -/

/-- C2: for every input candidate, error log and attempt number, if the
repair completion adapter raises (modelled `completion = none`) or the
sanitized completion does not start with the start marker,
`fix_latex_compilation_errors` returns the input candidate unchanged,
so the candidate fed to the next compiler invocation is byte-identical
to the one used in the previous failed attempt. -/
theorem fix_keeps_candidate_on_rejected_repair
    (latex_code error_log : Str) (attempt : Nat) (completion : Option Str) :
    (completion = none →
      fix_latex_compilation_errors latex_code (some error_log) attempt completion =
        .ok latex_code) ∧
    (∀ content, completion = some content →
      startsWithL documentclass (sanitize content) = false →
      fix_latex_compilation_errors latex_code (some error_log) attempt completion =
        .ok latex_code) := by
  constructor
  · rintro rfl
    rfl
  · rintro content rfl hno
    simp [fix_latex_compilation_errors, fix_latex_body, hno]

/-- Witness for C2 at a concrete candidate, log and rejected repair. -/
theorem fix_keeps_candidate_witness :
    fix_latex_compilation_errors (chars "\\documentclass\x7barticle\x7d")
        (some (chars "log")) 1 (some (chars "here is a snippet")) =
      .ok (chars "\\documentclass\x7barticle\x7d") :=
  (fix_keeps_candidate_on_rejected_repair (chars "\\documentclass\x7barticle\x7d")
    (chars "log") 1 (some (chars "here is a snippet"))).2
    (chars "here is a snippet") rfl (by decide)

/-- C3: `refine_latex_resume` returns the original document unchanged
when (a) the completion adapter raises, (b) the sanitized completion
does not start with the start marker, or (c) the sanitized document
(after the sanitizer's end-marker auto-repair, see `refined_document`)
is shorter than 50% of the original; and in every case it either
returns the original or a document that starts with the start marker
and passes the 50% guard — it never propagates a snippet and, being
total, never raises. -/
theorem refine_returns_original_on_failure
    (current_latex : Str) (completion : Option Str) :
    (completion = none → refine_latex_resume current_latex completion = current_latex) ∧
    (∀ content, completion = some content →
      (startsWithL documentclass (sanitize content) = false →
        refine_latex_resume current_latex completion = current_latex) ∧
      (2 * (refined_document content).length < current_latex.length →
        refine_latex_resume current_latex completion = current_latex)) ∧
    (refine_latex_resume current_latex completion = current_latex ∨
      (startsWithL documentclass (refine_latex_resume current_latex completion) = true ∧
        ¬ 2 * (refine_latex_resume current_latex completion).length <
          current_latex.length)) := by
  refine ⟨?_, ?_, ?_⟩
  · rintro rfl
    rfl
  · rintro content rfl
    constructor
    · intro hno
      simp [refine_latex_resume, hno]
    · intro hshort
      by_cases hsw : startsWithL documentclass (sanitize content) = true
      · simp [refine_latex_resume, hsw, hshort]
      · rw [Bool.not_eq_true] at hsw
        simp [refine_latex_resume, hsw]
  · cases completion with
    | none => exact Or.inl rfl
    | some content =>
      by_cases hsw : startsWithL documentclass (sanitize content) = true
      · by_cases hlen : 2 * (refined_document content).length < current_latex.length
        · exact Or.inl (by simp [refine_latex_resume, hsw, hlen])
        · refine Or.inr ?_
          have hres : refine_latex_resume current_latex (some content) =
              refined_document content := by
            simp [refine_latex_resume, hsw, hlen]
          rw [hres]
          refine ⟨?_, hlen⟩
          rw [refined_document]
          split
          · exact hsw
          · exact startsWithL_mono hsw appendEnd
      · rw [Bool.not_eq_true] at hsw
        exact Or.inl (by simp [refine_latex_resume, hsw])

/-- Witness for C3: a short refinement (case (c)) leaves a long
original untouched. -/
theorem refine_returns_original_witness :
    refine_latex_resume
        (chars "\\documentclass\x7barticle\x7d 0123456789012345678901234567890123456789012345678901234567890123456789")
        (some (chars "\\documentclass")) =
      chars "\\documentclass\x7barticle\x7d 0123456789012345678901234567890123456789012345678901234567890123456789" :=
  ((refine_returns_original_on_failure
      (chars "\\documentclass\x7barticle\x7d 0123456789012345678901234567890123456789012345678901234567890123456789")
      (some (chars "\\documentclass"))).2.1
    (chars "\\documentclass") rfl).2 (by decide)

/-- C9: `get_resume_suggestions` always returns a non-empty list of at
most 4 suggestions; the fixed default list has exactly 4 entries and is
returned both on an adapter exception and when line-by-line parsing
yields no items; the function is total, so it never raises. -/
theorem suggestions_nonempty_at_most_four (completion : Option Str) :
    get_resume_suggestions completion ≠ [] ∧
    (get_resume_suggestions completion).length ≤ 4 ∧
    default_suggestions.length = 4 ∧
    (completion = none → get_resume_suggestions completion = default_suggestions) ∧
    (∀ raw, completion = some raw → parseSuggestions (trimL raw) = [] →
      get_resume_suggestions completion = default_suggestions) := by
  refine ⟨?_, ?_, rfl, ?_, ?_⟩
  · cases completion with
    | none =>
      show default_suggestions ≠ []
      simp [default_suggestions]
    | some raw =>
      rw [get_resume_suggestions]
      cases hp : parseSuggestions (trimL raw) with
      | nil => simp [default_suggestions]
      | cons x xs => simp
  · cases completion with
    | none =>
      show default_suggestions.length ≤ 4
      rfl
    | some raw =>
      rw [get_resume_suggestions]
      cases hp : parseSuggestions (trimL raw) with
      | nil =>
        simp only [if_pos rfl]
        exact le_rfl
      | cons x xs =>
        rw [if_neg (by simp : ¬(x :: xs : List Str) = [])]
        simp only [List.length_take]
        exact Nat.min_le_left _ _
  · rintro rfl
    rfl
  · rintro raw rfl hp
    simp [get_resume_suggestions, hp]

/-- Witness for C9: an adapter exception yields the default list. -/
theorem suggestions_default_witness :
    get_resume_suggestions none = default_suggestions :=
  (suggestions_nonempty_at_most_four none).2.2.2.1 rfl

/-- C10: extraction failures are encoded in-band as text beginning with
`"Error"` (both extractors), and `parse_resume_file` returns an
`{error: ...}` result for every extracted text that starts with
`"Error"` — including a legitimately extracted resume whose text
happens to begin with that word. -/
theorem parse_rejects_error_prefixed_text (filename text : Str) :
    (∀ e, startsWithL (chars "Error") (extract_text_from_pdf (.error e)) = true) ∧
    (∀ e paras, startsWithL (chars "Error")
        (extract_text_from_docx (.error paras) (.error e)) = true) ∧
    (startsWithL (chars "Error") text = true →
      parse_resume_file true (chars ".pdf") filename text =
        .error (chars "Failed to extract text: " ++ text)) := by
  refine ⟨?_, ?_, ?_⟩
  · intro e
    show startsWithL (chars "Error") (chars "Error extracting PDF text: " ++ e) = true
    rw [show chars "Error extracting PDF text: " =
        chars "Error" ++ chars " extracting PDF text: " from by decide,
      List.append_assoc]
    exact startsWithL_self_append _ _
  · intro e paras
    show startsWithL (chars "Error") (chars "Error extracting DOCX text: " ++ e) = true
    rw [show chars "Error extracting DOCX text: " =
        chars "Error" ++ chars " extracting DOCX text: " from by decide,
      List.append_assoc]
    exact startsWithL_self_append _ _
  · intro hsw
    have hne : text ≠ [] := by
      intro h
      rw [h] at hsw
      exact absurd hsw (by decide)
    have h1 : toLowerL (chars ".pdf") = chars ".pdf" := by decide
    simp [parse_resume_file, h1, hne, hsw]

/-- Witness for C10 at a concrete PDF extraction failure message. -/
theorem parse_rejects_error_prefixed_witness :
    parse_resume_file true (chars ".pdf") (chars "r.pdf")
        (chars "Error extracting PDF text: boom") =
      .error (chars "Failed to extract text: " ++
        chars "Error extracting PDF text: boom") :=
  (parse_rejects_error_prefixed_text (chars "r.pdf")
    (chars "Error extracting PDF text: boom")).2.2 (by decide)

/-- Counterexample to C4 as stated: the log
`"undefined control sequence"` contains the claimed marker
`"undefined control sequence"` (case-insensitively), yet
`analyze_latex_error` classifies it `general_error`, not
`undefined_command` — the code's markers carry a `"! "` prefix. -/
theorem analyze_latex_error_needs_bang_marker :
    occursIn (chars "undefined control sequence")
        (toLowerL (chars "undefined control sequence")) ∧
    (analyze_latex_error (chars "undefined control sequence")).1 =
      chars "general_error" ∧
    chars "general_error" ≠ chars "undefined_command" := by
  refine ⟨⟨[], [], by decide⟩, by decide, by decide⟩

/-- C4 as amended: `analyze_latex_error` classifies by first-match-wins
case-insensitive substring search with the markers
`"! undefined control sequence"`, `"! missing"` and `"! package"`
(each including the `"! "` prefix), then `font_error` when `"font"`
co-occurs with `"not found"` or `"error"`, else `general_error`; the
empty (falsy) log is classified `unknown`, not `general_error`. -/
theorem analyze_latex_error_classification (log_output : Str)
    (h : log_output ≠ []) :
    ((analyze_latex_error []).1 = chars "unknown") ∧
    (occursIn (chars "! undefined control sequence") (toLowerL log_output) →
      (analyze_latex_error log_output).1 = chars "undefined_command") ∧
    (¬ occursIn (chars "! undefined control sequence") (toLowerL log_output) →
      occursIn (chars "! missing") (toLowerL log_output) →
      (analyze_latex_error log_output).1 = chars "syntax_error") ∧
    (¬ occursIn (chars "! undefined control sequence") (toLowerL log_output) →
      ¬ occursIn (chars "! missing") (toLowerL log_output) →
      occursIn (chars "! package") (toLowerL log_output) →
      (analyze_latex_error log_output).1 = chars "package_error") ∧
    (¬ occursIn (chars "! undefined control sequence") (toLowerL log_output) →
      ¬ occursIn (chars "! missing") (toLowerL log_output) →
      ¬ occursIn (chars "! package") (toLowerL log_output) →
      occursIn (chars "font") (toLowerL log_output) →
      (occursIn (chars "not found") (toLowerL log_output) ∨
        occursIn (chars "error") (toLowerL log_output)) →
      (analyze_latex_error log_output).1 = chars "font_error") ∧
    (¬ occursIn (chars "! undefined control sequence") (toLowerL log_output) →
      ¬ occursIn (chars "! missing") (toLowerL log_output) →
      ¬ occursIn (chars "! package") (toLowerL log_output) →
      ¬ (occursIn (chars "font") (toLowerL log_output) ∧
          (occursIn (chars "not found") (toLowerL log_output) ∨
            occursIn (chars "error") (toLowerL log_output))) →
      (analyze_latex_error log_output).1 = chars "general_error") := by
  have bridge : ∀ pat : Str, containsL pat (toLowerL log_output) = true ↔
      occursIn pat (toLowerL log_output) := fun pat => containsL_iff pat _
  have bridgef : ∀ pat : Str, ¬ occursIn pat (toLowerL log_output) →
      containsL pat (toLowerL log_output) = false := by
    intro pat hno
    cases hc : containsL pat (toLowerL log_output) with
    | false => rfl
    | true => exact absurd ((bridge pat).mp hc) hno
  refine ⟨rfl, ?_, ?_, ?_, ?_, ?_⟩
  · intro hu
    simp [analyze_latex_error, h, (bridge _).mpr hu]
  · intro hnu hm
    simp [analyze_latex_error, h, bridgef _ hnu, (bridge _).mpr hm]
  · intro hnu hnm hp
    simp [analyze_latex_error, h, bridgef _ hnu, bridgef _ hnm, (bridge _).mpr hp]
  · intro hnu hnm hnp hf hnf
    rcases hnf with hnf | hnf
    · simp [analyze_latex_error, h, bridgef _ hnu, bridgef _ hnm, bridgef _ hnp,
        (bridge _).mpr hf, (bridge _).mpr hnf]
    · simp [analyze_latex_error, h, bridgef _ hnu, bridgef _ hnm, bridgef _ hnp,
        (bridge _).mpr hf, (bridge _).mpr hnf]
  · intro hnu hnm hnp hfc
    have hsplit : containsL (chars "font") (toLowerL log_output) = false ∨
        (containsL (chars "not found") (toLowerL log_output) = false ∧
          containsL (chars "error") (toLowerL log_output) = false) := by
      by_cases hf : occursIn (chars "font") (toLowerL log_output)
      · refine Or.inr ⟨?_, ?_⟩
        · refine bridgef _ ?_
          intro hnf
          exact hfc ⟨hf, Or.inl hnf⟩
        · refine bridgef _ ?_
          intro hnf
          exact hfc ⟨hf, Or.inr hnf⟩
      · exact Or.inl (bridgef _ hf)
    rcases hsplit with hf | ⟨hnf1, hnf2⟩
    · simp [analyze_latex_error, h, bridgef _ hnu, bridgef _ hnm, bridgef _ hnp, hf]
    · simp [analyze_latex_error, h, bridgef _ hnu, bridgef _ hnm, bridgef _ hnp,
        hnf1, hnf2]

/-- Witness for the amended C4 on a concrete nonempty log carrying the
bang-prefixed marker (case-insensitively). -/
theorem analyze_latex_error_classification_witness :
    (analyze_latex_error (chars "! Undefined control sequence.")).1 =
      chars "undefined_command" :=
  (analyze_latex_error_classification (chars "! Undefined control sequence.")
      (by decide)).2.1 ⟨[], chars ".", by decide⟩

/-- C6: for every sanitized completion that starts with the start
marker but lacks the end marker, the accepted candidate of
`generate_latex_resume` (and likewise of
`fix_latex_compilation_errors`) is the sanitized completion with
`"\n\\end{document}\n"` appended: it contains exactly one end marker
and, after discarding the trailing newline (`rstripL`), ends with the
end marker; a sanitized completion already containing the end marker
is returned entirely unchanged; and a sanitized completion lacking the
start marker is never auto-repaired into a candidate — the generator
falls back and the fixer keeps the previous candidate. -/
theorem envelope_autorepair_end_marker
    (template user_name email phone latex_code error_log : Str) (attempt : Nat)
    (content : Str) :
    (startsWithL documentclass (sanitize content) = true →
      containsL endMarker (sanitize content) = false →
      generate_latex_resume template user_name email phone (some content) =
          sanitize content ++ appendEnd ∧
      fix_latex_compilation_errors latex_code (some error_log) attempt
          (some content) = .ok (sanitize content ++ appendEnd) ∧
      countSep endMarker (sanitize content ++ appendEnd) = 1 ∧
      endsWithL endMarker (rstripL (sanitize content ++ appendEnd)) = true) ∧
    (startsWithL documentclass (sanitize content) = true →
      containsL endMarker (sanitize content) = true →
      generate_latex_resume template user_name email phone (some content) =
          sanitize content ∧
      fix_latex_compilation_errors latex_code (some error_log) attempt
          (some content) = .ok (sanitize content)) ∧
    (startsWithL documentclass (sanitize content) = false →
      generate_latex_resume template user_name email phone (some content) =
          create_fallback_latex template user_name email phone ∧
      fix_latex_compilation_errors latex_code (some error_log) attempt
          (some content) = .ok latex_code) := by
  refine ⟨?_, ?_, ?_⟩
  · intro hsw hct
    refine ⟨?_, ?_, ?_, ?_⟩
    · simp [generate_latex_resume, hsw, hct]
    · simp [fix_latex_compilation_errors, fix_latex_body, hsw, hct]
    · have hno : ¬ occursIn endMarker (sanitize content) :=
        (containsL_false_iff _ _).mp hct
      rw [show appendEnd = '\n' :: chars "\\end\x7bdocument\x7d\n" from by decide,
        countSep_append_right _ hno (by decide)]
      decide
    · have hr1 : rstripL appendEnd = chars "\n\\end\x7bdocument\x7d" := by decide
      have hr2 : rstripL (sanitize content ++ appendEnd) =
          sanitize content ++ chars "\n\\end\x7bdocument\x7d" := by
        rw [rstripL_append (sanitize content) (by rw [hr1]; decide), hr1]
      rw [hr2, endsWithL_iff]
      refine ⟨sanitize content ++ ['\n'], ?_⟩
      rw [List.append_assoc]
      congr 1
  · intro hsw hct
    constructor
    · simp [generate_latex_resume, hsw, hct]
    · simp [fix_latex_compilation_errors, fix_latex_body, hsw, hct]
  · intro hsw
    constructor
    · simp [generate_latex_resume, hsw]
    · simp [fix_latex_compilation_errors, fix_latex_body, hsw]

/-- Witness for C6 at a concrete completion that starts with the start
marker and lacks the end marker. -/
theorem envelope_autorepair_witness :
    generate_latex_resume (chars "T") (chars "N") (chars "E") (chars "P")
        (some (chars "\\documentclass\x7barticle\x7d hello")) =
      sanitize (chars "\\documentclass\x7barticle\x7d hello") ++ appendEnd ∧
    countSep endMarker
        (sanitize (chars "\\documentclass\x7barticle\x7d hello") ++ appendEnd) = 1 := by
  have h := (envelope_autorepair_end_marker (chars "T") (chars "N") (chars "E")
    (chars "P") (chars "L") (chars "log") 0
    (chars "\\documentclass\x7barticle\x7d hello")).1 (by decide) (by decide)
  exact ⟨h.1, h.2.2.1⟩

theorem startsWithL_cons_of_ne {c d : Char} (h : c ≠ d) (p s : Str) :
    startsWithL (c :: p) (d :: s) = false := by
  simp [startsWithL, h]

/-- Counterexample to C7 as stated: a completion wrapped in a fenced
block with the language tag `python` (instead of `latex`) and valid
inner document markers is not unwrapped to the inner markup — the tag
survives sanitization, so the result does not even start with the
start marker. -/
theorem sanitize_keeps_nonlatex_tag :
    sanitize (chars "```python\n\\documentclass\x7barticle\x7d\n\\end\x7bdocument\x7d\n```") ≠
      trimL (chars "\\documentclass\x7barticle\x7d\n\\end\x7bdocument\x7d") ∧
    startsWithL documentclass
      (sanitize (chars "```python\n\\documentclass\x7barticle\x7d\n\\end\x7bdocument\x7d\n```")) =
      false := by
  exact ⟨by decide, by decide⟩

/-- C7 as amended: for every completion wrapped in a single fenced code
block whose opening fence is immediately followed by the language tag
`latex` (the only tag the clean-up strips), the sanitizer strips the
fences and the tag, trims whitespace and returns the inner markup
otherwise unchanged; when the inner markup carries valid document
markers, `generate_latex_resume` accepts it as the candidate. -/
theorem sanitize_strips_latex_fenced_block (inner : Str)
    (hf : containsL fenceMark inner = false) :
    sanitize ((chars "```latex\n" ++ inner) ++ chars "\n```") = trimL inner ∧
    (∀ template user_name email phone,
      startsWithL documentclass (trimL inner) = true →
      containsL endMarker (trimL inner) = true →
      generate_latex_resume template user_name email phone
          (some ((chars "```latex\n" ++ inner) ++ chars "\n```")) = trimL inner) := by
  have hinner : ¬ occursIn fenceMark inner := (containsL_false_iff _ _).mp hf
  have hna : ¬ occursIn fenceMark (chars "latex\n" ++ inner) := by
    intro hocc
    apply hinner
    have hsh : fenceMark = '`' :: chars "``" := by decide
    rw [hsh] at hocc ⊢
    exact occursIn_right_of_head_notin (by decide) hocc
  have hshape : (chars "```latex\n" ++ inner) ++ chars "\n```" =
      ('`' :: (chars "``latex\n" ++ inner ++ chars "\n``")) ++ ['`'] := by
    rw [show chars "```latex\n" = '`' :: chars "``latex\n" from by decide,
      show chars "\n```" = chars "\n``" ++ ['`'] from by decide]
    simp [List.append_assoc]
  have htrim : trimL ((chars "```latex\n" ++ inner) ++ chars "\n```") =
      (chars "```latex\n" ++ inner) ++ chars "\n```" := by
    rw [hshape]
    exact trimL_sandwich_nonws (by decide) (by decide) _
  have hsw1 : startsWithL fenceMark ((chars "```latex\n" ++ inner) ++ chars "\n```") =
      true := by
    rw [show chars "```latex\n" = fenceMark ++ chars "latex\n" from by decide]
    simp only [List.append_assoc]
    exact startsWithL_self_append _ _
  have hdrop3 : (((chars "```latex\n" ++ inner) ++ chars "\n```").drop 3) =
      chars "latex\n" ++ (inner ++ ('\n' :: fenceMark)) := by
    rw [show chars "```latex\n" = fenceMark ++ chars "latex\n" from by decide,
      show chars "\n```" = '\n' :: fenceMark from by decide]
    simp only [List.append_assoc]
    rw [show (3 : Nat) = fenceMark.length from by decide]
    exact List.drop_left _ _
  have hbreak : breakOnSep fenceMark ((chars "latex\n" ++ inner) ++ ('\n' :: fenceMark)) =
      some ((chars "latex\n" ++ inner) ++ ['\n'], []) := by
    rw [breakOnSep_append_right fenceMark hna (by decide),
      show breakOnSep fenceMark ('\n' :: fenceMark) = some (['\n'], []) from by decide]
    rfl
  have htus : takeUntilSep fenceMark
      ((((chars "```latex\n" ++ inner) ++ chars "\n```")).drop 3) =
      (chars "latex\n" ++ inner) ++ ['\n'] := by
    rw [hdrop3, takeUntilSep, ← List.append_assoc, hbreak]
  have htshape : (chars "latex\n" ++ inner) ++ ['\n'] =
      latexTag ++ ('\n' :: (inner ++ ['\n'])) := by
    rw [show chars "latex\n" = latexTag ++ ['\n'] from by decide]
    simp [List.append_assoc]
  have hlt : startsWithL latexTag ((chars "latex\n" ++ inner) ++ ['\n']) = true := by
    rw [htshape]
    exact startsWithL_self_append _ _
  have hdrop5 : ((chars "latex\n" ++ inner) ++ ['\n']).drop 5 =
      '\n' :: (inner ++ ['\n']) := by
    rw [htshape]
    rw [show (5 : Nat) = latexTag.length from by decide]
    exact List.drop_left _ _
  have hend : endsWithL fenceMark ('\n' :: (inner ++ ['\n'])) = false := by
    rw [endsWithL]
    have hrev : ('\n' :: (inner ++ ['\n'])).reverse = '\n' :: (inner.reverse ++ ['\n']) := by
      simp
    rw [hrev, show fenceMark.reverse = '`' :: chars "``" from by decide]
    exact startsWithL_cons_of_ne (by decide) _ _
  have hstrip : stripFences ((chars "```latex\n" ++ inner) ++ chars "\n```") =
      '\n' :: (inner ++ ['\n']) := by
    rw [stripFences]
    simp only [hsw1, if_true, htus, hlt, hdrop5, hend, if_false]
    simp
  have hsan : sanitize ((chars "```latex\n" ++ inner) ++ chars "\n```") = trimL inner := by
    rw [sanitize, htrim, hstrip,
      show ('\n' :: (inner ++ ['\n'])) = ('\n' :: inner) ++ ['\n'] from by simp,
      trimL_snoc_ws (show ('\n').isWhitespace = true from by decide)]
    exact trimL_cons_ws (by decide) inner
  refine ⟨hsan, ?_⟩
  intro template user_name email phone hsw hct
  simp only [generate_latex_resume]
  rw [hsan, hsw, hct]
  simp

/-- Witness for the amended C7 at a concrete fenced completion. -/
theorem sanitize_strips_latex_fenced_block_witness :
    sanitize ((chars "```latex\n" ++
        chars "\\documentclass\x7barticle\x7d\nX\n\\end\x7bdocument\x7d") ++
        chars "\n```") =
      trimL (chars "\\documentclass\x7barticle\x7d\nX\n\\end\x7bdocument\x7d") :=
  (sanitize_strips_latex_fenced_block
    (chars "\\documentclass\x7barticle\x7d\nX\n\\end\x7bdocument\x7d") (by decide)).1

theorem startsWith_documentclass_rstrip {s : Str}
    (h : startsWithL documentclass s = true) :
    startsWithL documentclass (rstripL s) = true := by
  obtain ⟨t, rfl⟩ := (startsWithL_iff _ _).mp h
  by_cases ht : rstripL t = []
  · have htr : t.reverse.dropWhile Char.isWhitespace = [] := by
      have h2 := congrArg List.reverse ht
      rw [rstripL, List.reverse_reverse] at h2
      simpa using h2
    have hres : rstripL (documentclass ++ t) = documentclass := by
      rw [rstripL, List.reverse_append, dropWhile_append_full, if_pos htr,
        show List.dropWhile Char.isWhitespace documentclass.reverse =
          documentclass.reverse from by decide]
      simp
    rw [hres]
    exact (startsWithL_iff _ _).mpr ⟨[], by simp⟩
  · rw [rstripL_append documentclass ht]
    exact startsWithL_self_append _ _

theorem endsWith_rstrip_append_end (x : Str) :
    endsWithL endMarker (rstripL (x ++ appendEnd)) = true := by
  have hr1 : rstripL appendEnd = chars "\n\\end\x7bdocument\x7d" := by decide
  rw [rstripL_append x (by rw [hr1]; decide), hr1, endsWithL_iff]
  refine ⟨x ++ ['\n'], ?_⟩
  rw [List.append_assoc]
  congr 1

/-- C8: when the completion adapter raises (`none`) or the sanitized
completion is rejected (no start marker), `generate_latex_resume`
returns the fallback document `create_fallback_latex` — the fixed
template with the literal name/email/phone placeholder substitutions
in both double-brace and single-brace spellings; the fallback is a
total function (it never raises), and for every name/email/phone its
result starts with the start marker and, after discarding trailing
whitespace, ends with the end marker. -/
theorem fallback_document_properties (user_name email phone : Str)
    (completion : Option Str) :
    (completion = none →
      generate_latex_resume jakes_template user_name email phone completion =
        create_fallback_latex jakes_template user_name email phone) ∧
    (∀ content, completion = some content →
      startsWithL documentclass (sanitize content) = false →
      generate_latex_resume jakes_template user_name email phone completion =
        create_fallback_latex jakes_template user_name email phone) ∧
    startsWithL documentclass
      (create_fallback_latex jakes_template user_name email phone) = true ∧
    endsWithL endMarker
      (rstripL (create_fallback_latex jakes_template user_name email phone)) =
      true := by
  have hhead : ∀ l : Str, l.head? = some '\x7b' → ∃ pt, l = '\x7b' :: pt := by
    intro l hl
    cases l with
    | nil => simp at hl
    | cons c cs =>
      simp only [List.head?_cons, Option.some.injEq] at hl
      exact ⟨cs, by rw [hl]⟩
  have hpats : ∀ pr ∈ fallbackReplacements user_name email phone,
      ∃ pt, pr.1 = '\x7b' :: pt := by
    intro pr hpr
    simp only [fallbackReplacements, List.mem_cons, List.not_mem_nil, or_false] at hpr
    rcases hpr with rfl | rfl | rfl | rfl | rfl | rfl | rfl | rfl <;>
      exact hhead _ rfl
  have hstart : startsWithL documentclass
      ((fallbackReplacements user_name email phone).foldl
        (fun acc pr => replaceAllL pr.1 pr.2 acc) jakes_template) = true :=
    startsWith_foldl_replace _ (by decide) hpats (by decide)
  refine ⟨?_, ?_, ?_, ?_⟩
  · rintro rfl
    rfl
  · rintro content rfl hno
    simp [generate_latex_resume, hno]
  · simp only [create_fallback_latex]
    split
    · exact hstart
    · exact startsWithL_mono (startsWith_documentclass_rstrip hstart) appendEnd
  · simp only [create_fallback_latex]
    split
    · rename_i hends
      exact endsWithL_rstrip_of_trim hends
    · exact endsWith_rstrip_append_end _

/-- Witness for C8 at the spec's scenario-5 contact data. -/
theorem fallback_document_witness :
    generate_latex_resume jakes_template (chars "Jane Doe")
        (chars "jane@example.com") (chars "(555) 123-4567") none =
      create_fallback_latex jakes_template (chars "Jane Doe")
        (chars "jane@example.com") (chars "(555) 123-4567") ∧
    startsWithL documentclass
      (create_fallback_latex jakes_template (chars "Jane Doe")
        (chars "jane@example.com") (chars "(555) 123-4567")) = true ∧
    endsWithL endMarker
      (rstripL (create_fallback_latex jakes_template (chars "Jane Doe")
        (chars "jane@example.com") (chars "(555) 123-4567"))) = true := by
  have h := fallback_document_properties (chars "Jane Doe")
    (chars "jane@example.com") (chars "(555) 123-4567") none
  exact ⟨h.1 rfl, h.2.2.1, h.2.2.2⟩

theorem enhance_loop_ok_eq {compiler : Nat → CompileResult}
    {repairc : Nat → Option Str} {latex_code : Str} {attempt : Nat}
    (h : compiler attempt = .ok) :
    enhance_loop compiler repairc latex_code attempt =
      ⟨.success attempt latex_code, 1, 0⟩ := by
  rw [enhance_loop, h]

theorem enhance_loop_step_eq {compiler : Nat → CompileResult}
    {repairc : Nat → Option Str} {latex_code : Str} {attempt : Nat} {lg : Str}
    (h : compiler attempt = .failed (some lg)) (hlt : attempt < MAX_ATTEMPTS) :
    enhance_loop compiler repairc latex_code attempt =
      ⟨(enhance_loop compiler repairc
          (fix_latex_body latex_code (repairc attempt)) (attempt + 1)).outcome,
        (enhance_loop compiler repairc
          (fix_latex_body latex_code (repairc attempt)) (attempt + 1)).compiler_calls + 1,
        (enhance_loop compiler repairc
          (fix_latex_body latex_code (repairc attempt)) (attempt + 1)).repair_calls + 1⟩ := by
  rw [enhance_loop, h]
  simp [hlt, fix_latex_compilation_errors]

theorem enhance_loop_crash_eq {compiler : Nat → CompileResult}
    {repairc : Nat → Option Str} {latex_code : Str} {attempt : Nat}
    (h : compiler attempt = .failed none) (hlt : attempt < MAX_ATTEMPTS) :
    enhance_loop compiler repairc latex_code attempt = ⟨.serverError, 1, 0⟩ := by
  rw [enhance_loop, h]
  simp [hlt, fix_latex_compilation_errors]

theorem enhance_loop_exhaust_eq {compiler : Nat → CompileResult}
    {repairc : Nat → Option Str} {latex_code : Str} {attempt : Nat}
    {lg : Option Str}
    (h : compiler attempt = .failed lg) (hge : ¬ attempt < MAX_ATTEMPTS) :
    enhance_loop compiler repairc latex_code attempt =
      ⟨.exhausted (attempt - 1) latex_code, 1, 0⟩ := by
  rw [enhance_loop, h]
  simp [hge]

/-- Supporting bound: started at any `attempt ≤ MAX_ATTEMPTS`, the loop
invokes the compiler adapter at most `MAX_ATTEMPTS + 1 - attempt`
times; from `attempt = 0` that is `MAX_ATTEMPTS + 1`. -/
theorem enhance_loop_calls_le (compiler : Nat → CompileResult)
    (repairc : Nat → Option Str) :
    ∀ (n attempt : Nat) (lc : Str), MAX_ATTEMPTS - attempt ≤ n →
      attempt ≤ MAX_ATTEMPTS →
      (enhance_loop compiler repairc lc attempt).compiler_calls ≤
        MAX_ATTEMPTS + 1 - attempt := by
  intro n
  induction n with
  | zero =>
    intro attempt lc hn hle
    have ha : attempt = MAX_ATTEMPTS := by omega
    cases hc : compiler attempt with
    | ok =>
      rw [enhance_loop_ok_eq hc]
      show 1 ≤ MAX_ATTEMPTS + 1 - attempt
      omega
    | failed lg =>
      rw [enhance_loop_exhaust_eq hc (by omega)]
      show 1 ≤ MAX_ATTEMPTS + 1 - attempt
      omega
  | succ m ih =>
    intro attempt lc hn hle
    cases hc : compiler attempt with
    | ok =>
      rw [enhance_loop_ok_eq hc]
      show 1 ≤ MAX_ATTEMPTS + 1 - attempt
      omega
    | failed lg =>
      by_cases hlt : attempt < MAX_ATTEMPTS
      · cases lg with
        | none =>
          rw [enhance_loop_crash_eq hc hlt]
          show 1 ≤ MAX_ATTEMPTS + 1 - attempt
          omega
        | some l =>
          rw [enhance_loop_step_eq hc hlt]
          have hrec := ih (attempt + 1)
            (fix_latex_body lc (repairc attempt)) (by omega) (by omega)
          show (enhance_loop compiler repairc
              (fix_latex_body lc (repairc attempt)) (attempt + 1)).compiler_calls + 1 ≤
            MAX_ATTEMPTS + 1 - attempt
          omega
      · rw [enhance_loop_exhaust_eq hc hlt]
        show 1 ≤ MAX_ATTEMPTS + 1 - attempt
        omega

/-- C1 (code evaluated at the failing input): a compiler failure whose
`latex_log` is Python `None` — e.g. a compilation timeout
(`latex_compiler.py` 117-118) — makes the repair call raise `TypeError`
while formatting `error_log[:2000]` into the prompt, so the request
ends in the catch-all 500 response, an outcome distinct from both the
success response and the exhausted-budget response that the claim
allows. -/
theorem enhance_loop_crash_on_absent_log :
    (enhance_loop (fun _ => .failed none) (fun _ => none)
        (chars "\\documentclass") 0) = ⟨.serverError, 1, 0⟩ ∧
    (∀ k d, (EnhanceOutcome.serverError ≠ EnhanceOutcome.success k d)) ∧
    (∀ k d, (EnhanceOutcome.serverError ≠ EnhanceOutcome.exhausted k d)) := by
  refine ⟨enhance_loop_crash_eq rfl (by decide), ?_, ?_⟩ <;>
    · intro k d
      simp

/-- C5: when the compiler fails on attempts `0 .. k-1` (each failure
carrying a diagnostic log) and succeeds on attempt `k` with
`1 ≤ k ≤ MAX_ATTEMPTS`, the loop ends in the success response
reporting `compilation_attempts = k`, after exactly `k + 1` compiler
invocations and exactly `k` repair completions. -/
theorem success_at_attempt_k_reports_k (k : Nat) (compiler : Nat → CompileResult)
    (logs : Nat → Str) (repairc : Nat → Option Str) (latex_code : Str)
    (h1 : 1 ≤ k) (h2 : k ≤ MAX_ATTEMPTS)
    (hf : ∀ i, i < k → compiler i = .failed (some (logs i)))
    (hs : compiler k = .ok) :
    ∃ d, enhance_loop compiler repairc latex_code 0 =
      ⟨.success k d, k + 1, k⟩ := by
  suffices haux : ∀ n j, k - j = n → j ≤ k → ∀ lc : Str,
      ∃ d, enhance_loop compiler repairc lc j =
        ⟨.success k d, k - j + 1, k - j⟩ by
    obtain ⟨d, hd⟩ := haux k 0 (by omega) (by omega) latex_code
    refine ⟨d, ?_⟩
    rw [hd]
    congr 1
  intro n
  induction n with
  | zero =>
    intro j hn hj lc
    have hjk : j = k := by omega
    subst hjk
    refine ⟨lc, ?_⟩
    rw [enhance_loop_ok_eq hs]
    congr 1 <;> omega
  | succ m ih =>
    intro j hn hj lc
    have hjk : j < k := by omega
    have hcj : compiler j = .failed (some (logs j)) := hf j hjk
    have hjm : j < MAX_ATTEMPTS := by omega
    obtain ⟨d, hd⟩ := ih (j + 1) (by omega) (by omega)
      (fix_latex_body lc (repairc j))
    refine ⟨d, ?_⟩
    rw [enhance_loop_step_eq hcj hjm, hd]
    show (⟨EnhanceOutcome.success k d, k - (j + 1) + 1 + 1, k - (j + 1) + 1⟩ :
        LoopTrace) = ⟨.success k d, k - j + 1, k - j⟩
    congr 1 <;> omega

/-- Witness for C5 at `k = 4`: failures at attempts 0-3, success at
attempt 4, reported `compilation_attempts = 4` with exactly 4 repair
completions requested. -/
theorem success_at_attempt_four_witness :
    ∃ d, enhance_loop
        (fun i => if i < 4 then .failed (some (chars "log")) else .ok)
        (fun _ => none) (chars "\\documentclass") 0 =
      ⟨.success 4 d, 5, 4⟩ :=
  success_at_attempt_k_reports_k 4
    (fun i => if i < 4 then .failed (some (chars "log")) else .ok)
    (fun _ => chars "log") (fun _ => none) (chars "\\documentclass")
    (by omega) (by decide) (fun i hi => by simp [hi]) (by simp)
